import Mathlib

/-!
# BeatMapper — verification of the generation pipeline specification

Shallow embedding of the BeatMapper repository.  The frontend metadata
extraction (`frontend/src/utils/audioMetadata.js`) is embedded directly from
the source.  The backend pipeline (audio analyzer, difficulty classifier,
chart synthesizer, info writer, artifact store and task orchestrator) is not
present in the repository sources — only its documentation, README and
frontend callers are — so those components are modelled from the
specification, as marked on each definition.

Times and durations are represented in tenths of a second (`Nat`), which is
exact for every value the spec mentions (e.g. 180.5 s = 1805 tenths) and
avoids floating point.
-/

namespace BeatMapper

/-! ## Frontend metadata extraction (from `audioMetadata.js`) -/

/-- Whitespace characters matched by the JavaScript `\s`/`trim` on the ASCII
range (space, tab, LF, VT, FF, CR). -/
def isJsSpace (c : Char) : Bool :=
  c = ' ' || c = '\t' || c = '\n' || c = '\x0b' || c = '\x0c' || c = '\r'

/-- JavaScript `String.prototype.trim` restricted to the ASCII range. -/
def trimChars (cs : List Char) : List Char :=
  ((cs.dropWhile isJsSpace).reverse.dropWhile isJsSpace).reverse

/-- JavaScript `s.trim()` (ASCII range). -/
def jsTrim (s : String) : String := ⟨trimChars s.data⟩

/-- JavaScript `file.name.replace(/\.[^/.]+$/, "")` from
`extractMP3Metadata` line 95: drop a final `.ext` whose extension is
non-empty and contains neither `/` nor `.`. -/
def jsStripExt (s : String) : String :=
  let rev := s.data.reverse
  match rev.findIdx? (· = '.') with
  | none => s
  | some i =>
    if i = 0 then s
    else if (rev.take i).any (fun c => c = '/') then s
    else ⟨s.data.take (s.data.length - i - 1)⟩

/-- JavaScript `fileName.match(/^(.*?)\s*-\s*(.*?)$/)` followed by `.trim()`
of both groups (lines 133-137): with the lazy groups and the trims, this is
a split at the first `-`, with both sides trimmed.  `none` when the string
holds no dash. -/
def jsDashSplit (s : String) : Option (String × String) :=
  match s.data.findIdx? (· = '-') with
  | none => none
  | some p => some (jsTrim ⟨s.data.take p⟩, jsTrim ⟨s.data.drop (p + 1)⟩)

/-- Metadata record returned by one extraction method (music-metadata,
direct image scan, jsmediatags).  Empty string = absent field (JS falsy);
`year = some 0` is falsy in JS and treated as absent. -/
structure JsMeta where
  title : String
  artist : String
  album : String
  year : Option Nat
  artwork : Option String
deriving DecidableEq

/-- Result of `extractMP3Metadata`. -/
structure MP3Result where
  title : String
  artist : String
  album : String
  year : Option Nat
  artwork : Option String
deriving DecidableEq

/-- The `for (const method of extractionMethods)` loop of
`extractMP3Metadata` (lines 106-129).  Each list element is one method
invocation: `none` models a method that threw (the failure is caught and the
loop continues); `some md` models a successful return.  Field updates keep
JS truthiness (empty string / null are falsy), the title is only taken when
it differs from the stripped file name, and the loop breaks early once
title, artist and artwork are all present. -/
def mp3Loop (fileName : String) (acc : MP3Result) : List (Option JsMeta) → MP3Result
  | [] => acc
  | none :: rest => mp3Loop fileName acc rest
  | some md :: rest =>
    let acc :=
      { acc with
        title := if md.title ≠ "" ∧ md.title ≠ fileName then md.title else acc.title
        artist := if md.artist ≠ "" then md.artist else acc.artist
        album := if md.album ≠ "" then md.album else acc.album
        year := match md.year with
          | some y => if y ≠ 0 then some y else acc.year
          | none => acc.year
        artwork := match md.artwork with
          | some a => some a
          | none => acc.artwork }
    if acc.title ≠ "" ∧ acc.artist ≠ "" ∧ acc.artwork ≠ none then acc
    else mp3Loop fileName acc rest

/-- The function `extractMP3Metadata` (audioMetadata.js lines 76-160): initialise the
result with the file name (extension stripped) as backup title, run the
extraction methods in order with every failure caught, then, when no method
yielded an artist, parse an `Artist - Title` pattern out of the stripped
file name: the artist is the trimmed text before the first dash, and the
title is replaced by the trimmed text after it only when it still equals the
stripped file name. -/
def extractMP3Metadata (fileName : String) (methods : List (Option JsMeta)) : MP3Result :=
  let base := jsStripExt fileName
  let r := mp3Loop base ⟨base, "", "", none, none⟩ methods
  if r.artist = "" then
    match jsDashSplit base with
    | some (a, t) =>
      { r with artist := a, title := if r.title = base then t else r.title }
    | none => r
  else r

/-! ## Difficulty and song-map codes (info.csv documentation, spec §3) -/

/-- Modelled from the spec: analyzer output contract (§4.1) — tempo
estimate, ordered onset and beat timestamps, and the track duration, all
times in tenths of a second. -/
structure AnalyzerOutput where
  tempoEstimate : Nat
  onsetTimestamps : List Nat
  beatTimestamps : List Nat
  durationTenths : Nat
deriving DecidableEq

/-- Modelled from the spec: the decoded-audio input handed to the analyzer;
`decodeOk = false` models an unreadable container/codec. -/
structure AudioInput where
  decodeOk : Bool
  tempoEstimate : Nat
  onsets : List Nat
  beats : List Nat
  durationTenths : Nat
deriving DecidableEq

/-- Modelled from the spec: pipeline failure taxonomy (§7) for the stages
embedded here. -/
inductive PipelineError where
  | decodeError
  | emptyAudio
  | insufficientOnsets
deriving DecidableEq

/-- Modelled from the spec: Audio Analyzer (§4.1).  Fails with `DecodeError`
when the input is unreadable and `EmptyAudioError` when the duration is
zero; otherwise a pure transform of the decoded buffer. -/
def analyze (a : AudioInput) : Except PipelineError AnalyzerOutput :=
  if ¬ a.decodeOk then .error .decodeError
  else if a.durationTenths = 0 then .error .emptyAudio
  else .ok ⟨a.tempoEstimate, a.onsets, a.beats, a.durationTenths⟩

/-- Modelled from the spec: classifier result — resolved tier plus
`wasOverridden` (§4.2), with recoverable validation warnings. -/
structure ClassifierResult where
  tier : Nat
  wasOverridden : Bool
  warnings : List String
deriving DecidableEq

/-- Clamp an override to the nearest valid tier in {0,1,2,3}. -/
def clampTier (v : Int) : Nat :=
  if v < 0 then 0 else if 3 < v then 3 else v.toNat

/-- Named classification thresholds (onsets per 100 seconds); the spec
leaves the exact numbers as a tunable policy surface. -/
def densityEasyMax : Nat := 50

/-- Density bound (onsets per 100 s) below which the auto tier is at most MEDIUM. -/
def densityMediumMax : Nat := 120

/-- Density bound (onsets per 100 s) below which the auto tier is at most HARD. -/
def densityHardMax : Nat := 250

/-- Inter-onset-interval variance (hundredths-of-a-second squared) above
which the rhythm counts as irregular and the tier is bumped by one. -/
def irregularVarianceMin : Nat := 900

/-- Modelled from the spec: onset-density metric — onsets per 100 seconds of
track. -/
def onsetDensityPer100s (ao : AnalyzerOutput) : Nat :=
  if ao.durationTenths = 0 then 0
  else ao.onsetTimestamps.length * 1000 / ao.durationTenths

/-- Successive inter-onset intervals. -/
def ioIntervals (l : List Nat) : List Int :=
  List.zipWith (fun a b => (b : Int) - (a : Int)) l l.tail

/-- Modelled from the spec: inter-onset-interval variance metric, scaled to
hundredths-of-a-second squared. -/
def interOnsetVariance (l : List Nat) : Nat :=
  let ds := ioIntervals l
  let n := ds.length
  if n = 0 then 0
  else
    let s := ds.foldl (· + ·) 0
    let sq := (ds.map (fun d => ((n : Int) * (10 * d) - 10 * s) ^ 2)).foldl (· + ·) 0
    (sq / ((n : Int) ^ 3)).toNat

/-- Bucket an onset density into the four tiers through the named
thresholds. -/
def densityBucket (density : Nat) : Nat :=
  if density < densityEasyMax then 0
  else if density < densityMediumMax then 1
  else if density < densityHardMax then 2
  else 3

/-- Modelled from the spec: auto-classification (§4.2) — bucket the onset
density into the four tiers through the named thresholds, bumping one tier
on an irregular inter-onset-interval variance. -/
def autoClassify (ao : AnalyzerOutput) : Nat :=
  if irregularVarianceMin ≤ interOnsetVariance ao.onsetTimestamps then
    min (densityBucket (onsetDensityPer100s ao) + 1) 3
  else densityBucket (onsetDensityPer100s ao)

/-- Modelled from the spec: Difficulty Classifier (§4.2).  An explicit
override short-circuits classification and is range-validated against
{0,1,2,3}; out-of-range values clamp to the nearest valid tier with a
warning instead of failing.  Never fails for valid analyzer output. -/
def resolveDifficulty (ao : AnalyzerOutput) (override : Option Int) : ClassifierResult :=
  match override with
  | none => ⟨autoClassify ao, false, []⟩
  | some v =>
    if 0 ≤ v ∧ v ≤ 3 then ⟨v.toNat, true, []⟩
    else ⟨clampTier v, true, ["difficulty override out of range; clamped to nearest valid tier"]⟩

/-! ## Chart synthesizer (spec §4.3) -/

/-- One note event of the chart: timestamp (tenths of a second) and
lane/type. -/
structure NoteEvent where
  timeTenths : Nat
  laneOrType : Nat
deriving DecidableEq

/-- Modelled from the spec: minimum spacing (tenths of a second) between two
consecutive notes, scaling inversely with the tier — higher tiers permit
denser note spacing. -/
def minSpacingTenths : Nat → Nat
  | 0 => 8
  | 1 => 6
  | 2 => 4
  | _ => 2

/-- Modelled from the spec: chart quality floor — at least one onset per ten
seconds of track (policy constant). -/
def onsetFloorPerTenSeconds : Nat := 1

/-- Greedy spacing filter: keep an onset only when it lies at least `sp`
tenths after the last kept one (`last`). -/
def keepSpaced (sp : Nat) : List Nat → Option Nat → List Nat
  | [], _ => []
  | t :: rest, none => t :: keepSpaced sp rest (some t)
  | t :: rest, some last =>
    if last + sp ≤ t then t :: keepSpaced sp rest (some t)
    else keepSpaced sp rest (some last)

/-- Deterministic lane assignment: notes cycle through the four lanes in
order of appearance. -/
def mkNotes : Nat → List Nat → List NoteEvent
  | _, [] => []
  | i, t :: ts => ⟨t, i % 4⟩ :: mkNotes (i + 1) ts

/-- Modelled from the spec: Chart Synthesizer (§4.3).  Deterministic map
from onset timestamps and resolved tier to an ordered note-event sequence
respecting the tier's minimum spacing; fails with `InsufficientOnsetsError`
when the onsets are too sparse for the track's duration. -/
def synthesize (onsets : List Nat) (tier : Nat) (durationTenths : Nat) :
    Except PipelineError (List NoteEvent) :=
  if onsets.length * 100 < onsetFloorPerTenSeconds * durationTenths then
    .error .insufficientOnsets
  else
    .ok (mkNotes 0 (keepSpaced (minSpacingTenths tier) onsets none))

/-! ## Metadata/Info writer (spec §4.4, info.csv format documentation) -/

/-- Render a tenths-of-a-second duration as a decimal-seconds string
(`1805 ↦ "180.5"`), the way the float duration prints in the info file. -/
def renderTenths (d : Nat) : String :=
  toString (d / 10) ++ "." ++ toString (d % 10)

/-- The fixed header row of the info file. -/
def infoHeader : List String :=
  ["Song Name", "Author Name", "Difficulty", "Song Duration", "Song Map"]

/-- Default difficulty code used when an invalid value reaches the writer
(EASY = 0, the documented smart default). -/
def defaultDifficultyCode : Nat := 0

/-- Default song-map code used when an invalid value reaches the writer
(VULCAN = 0, the documented smart default). -/
def defaultSongMapCode : Nat := 0

/-- Output of the info writer: the CSV rows (header plus one data row) and
the logged correction warnings. -/
structure InfoOutput where
  rows : List (List String)
  warnings : List String
deriving DecidableEq

/-- Modelled from the spec: Metadata/Info Writer (§4.4, implemented by the
absent `info_generator.py`).  One header row and one data row in the fixed
field order, difficulty and song map as numeric codes; invalid codes are
corrected to the defined defaults and the correction is logged. -/
def writeInfo (title artist : String) (difficulty durTenths songMap : Nat) : InfoOutput :=
  let d := if difficulty ≤ 3 then difficulty else defaultDifficultyCode
  let m := if songMap ≤ 2 then songMap else defaultSongMapCode
  let warns :=
    (if difficulty ≤ 3 then [] else ["invalid difficulty value corrected to default"]) ++
    (if songMap ≤ 2 then [] else ["invalid song map value corrected to default"])
  ⟨[infoHeader, [title, artist, toString d, renderTenths durTenths, toString m]], warns⟩

/-! ## Artifact store and task orchestrator (spec §4.5, §4.6, §5, §6) -/

/-- Modelled from the spec: one generation/regeneration request — the
descriptive fields, optional explicit difficulty override, and the source
audio. -/
structure GenRequest where
  title : String
  artist : String
  songMap : Nat
  override : Option Int
  audio : AudioInput
deriving DecidableEq

/-- Modelled from the spec: GenerationTask record (§3) — owning beatmap,
stored request, status and progress percent. -/
inductive TaskStatus where
  | queued
  | inProgress
  | completed
  | error : String → TaskStatus
deriving DecidableEq

/-- One asynchronous unit of (re)generation work. -/
structure Task where
  bid : Nat
  req : GenRequest
  status : TaskStatus
  progress : Nat
deriving DecidableEq

/-- Modelled from the spec: the physical outputs for one beatmap, each
artifact tagged with the `artifactVersion` it was written at (§3's "never a
mix of two versions" is the statement that the tags agree). -/
structure ArtifactSet where
  chartVersion : Nat
  chart : List NoteEvent
  infoVersion : Nat
  infoRows : List (List String)
deriving DecidableEq

/-- Modelled from the spec: Beatmap record (§3) — descriptive fields,
difficulty mode (`none` = Auto), derived fields, the monotonic
`artifactVersion`, the committed artifact set, the store's staging slot and
the retained source audio for regeneration. -/
structure BeatmapRec where
  title : String
  artist : String
  songMap : Nat
  difficultyOverride : Option Int
  resolvedDifficulty : Nat
  durationTenths : Nat
  artifactVersion : Nat
  committed : Option ArtifactSet
  staging : Option ArtifactSet
  source : AudioInput
deriving DecidableEq

/-- Modelled from the spec: the orchestrator's mutable shared state — the
beatmap catalog, the task registry and the fresh task-id counter. -/
structure SysState where
  beatmaps : List (Nat × BeatmapRec)
  tasks : List (Nat × Task)
  nextTask : Nat
deriving DecidableEq

/-- A task counts as active while Queued or InProgress. -/
def isActive : TaskStatus → Bool
  | .queued => true
  | .inProgress => true
  | _ => false

/-- Terminal statuses: Completed and Error. -/
def isTerminal : TaskStatus → Bool
  | .completed => true
  | .error _ => true
  | _ => false

/-- Registry entry predicate: an active task owned by `bid`. -/
def activeFor (bid : Nat) (p : Nat × Task) : Bool :=
  isActive p.2.status && p.2.bid == bid

/-- Does some Queued/InProgress task for `bid` exist? -/
def hasActiveTask (s : SysState) (bid : Nat) : Bool :=
  s.tasks.any (activeFor bid)

/-- Insert-or-replace in an association list keyed by `Nat`. -/
def upsert {α : Type} (k : Nat) (v : α) : List (Nat × α) → List (Nat × α)
  | [] => [(k, v)]
  | p :: rest => if p.1 = k then (k, v) :: rest else p :: upsert k v rest

/-- Apply `f` to the task stored under `tid`, leaving other entries
untouched. -/
def updTask (tid : Nat) (f : Task → Task) (l : List (Nat × Task)) : List (Nat × Task) :=
  l.map (fun p => if p.1 = tid then (p.1, f p.2) else p)

/-- Rejection of a concurrent request for the same beatmap (§7). -/
inductive OrchError where
  | taskInProgress
deriving DecidableEq

/-- Modelled from the spec: the orchestrator accepts a generation request
only when no active task exists for the beatmap; otherwise it rejects with
`TaskInProgressError` and changes nothing (§4.6). -/
def requestGen (s : SysState) (bid : Nat) (req : GenRequest) :
    SysState × Except OrchError Nat :=
  if hasActiveTask s bid then (s, .error .taskInProgress)
  else
    ({ s with
        tasks := (s.nextTask, ⟨bid, req, .queued, 0⟩) :: s.tasks
        nextTask := s.nextTask + 1 },
      .ok s.nextTask)

/-- Modelled from the spec: the background worker picks a queued task up —
Queued → InProgress. -/
def startTask (s : SysState) (tid : Nat) : SysState :=
  { s with
      tasks := updTask tid
        (fun t => if t.status = .queued then { t with status := .inProgress } else t)
        s.tasks }

/-- Modelled from the spec: a progress write while InProgress — clamped to
0..100 and never retroactively decreased (§5). -/
def reportProgress (s : SysState) (tid p : Nat) : SysState :=
  { s with
      tasks := updTask tid
        (fun t =>
          if t.status = .inProgress then { t with progress := max t.progress (min p 100) }
          else t)
        s.tasks }

/-- The orchestrator's terminal message for each fatal pipeline error. -/
def errMsg : PipelineError → String
  | .decodeError => "could not decode audio"
  | .emptyAudio => "audio has zero duration"
  | .insufficientOnsets => "not enough onsets for a playable chart"

/-- Modelled from the spec: artifact bundle produced by one pipeline run,
before the store tags it with a version. -/
structure GenBundle where
  notes : List NoteEvent
  infoRows : List (List String)
  tier : Nat
  durationTenths : Nat
deriving DecidableEq

/-- Modelled from the spec: the pipeline driven in order by the
orchestrator — Analyzer → Classifier → Synthesizer → Writer (§4.6). -/
def pipeline (req : GenRequest) : Except PipelineError GenBundle :=
  match analyze req.audio with
  | .error e => .error e
  | .ok ao =>
    let cls := resolveDifficulty ao req.override
    match synthesize ao.onsetTimestamps cls.tier ao.durationTenths with
    | .error e => .error e
    | .ok notes =>
      let info := writeInfo req.title req.artist cls.tier ao.durationTenths req.songMap
      .ok ⟨notes, info.rows, cls.tier, ao.durationTenths⟩

/-- Modelled from the spec: Artifact Store staging write — all artifacts of
the run are written to the staging slot, tagged with the next version
(§4.5). -/
def stageArtifacts (rec : BeatmapRec) (b : GenBundle) : BeatmapRec :=
  { rec with
      staging := some ⟨rec.artifactVersion + 1, b.notes, rec.artifactVersion + 1, b.infoRows⟩ }

/-- Modelled from the spec: Artifact Store `commit` — the staged set is
promoted in one all-or-nothing swap and the version counter advances. -/
def commitStaged (rec : BeatmapRec) : BeatmapRec :=
  match rec.staging with
  | some a =>
    { rec with
        committed := some a
        artifactVersion := rec.artifactVersion + 1
        staging := none }
  | none => rec

/-- Modelled from the spec: Artifact Store `abort` — discard staging without
mutating the visible set. -/
def abortStaged (rec : BeatmapRec) : BeatmapRec := { rec with staging := none }

/-- Modelled from the spec: the metadata fields a successful run installs on
the beatmap record (never touching version, committed or staging). -/
def applyReqFields (rec : BeatmapRec) (req : GenRequest) (b : GenBundle) : BeatmapRec :=
  { rec with
      title := req.title
      artist := req.artist
      songMap := req.songMap
      difficultyOverride := req.override
      resolvedDifficulty := b.tier
      durationTenths := b.durationTenths
      source := req.audio }

/-- A beatmap record as first created (before its initial commit): version
0, nothing committed, nothing staged. -/
def freshRec (req : GenRequest) : BeatmapRec :=
  ⟨req.title, req.artist, req.songMap, req.override, 0, 0, 0, none, none, req.audio⟩

/-- On a stage failure the store aborts — any staging for the beatmap is
discarded, the committed set stays untouched — and the task moves to Error
with a descriptive message. -/
def finishError (s : SysState) (tid : Nat) (t : Task) (e : PipelineError) : SysState :=
  { s with
      beatmaps :=
        match List.lookup t.bid s.beatmaps with
        | some rec => upsert t.bid (abortStaged rec) s.beatmaps
        | none => s.beatmaps
      tasks := updTask tid
        (fun u =>
          if u.status = .inProgress then { u with status := .error (errMsg e) } else u)
        s.tasks }

/-- On pipeline success the artifacts are staged and committed atomically
and the task completes at 100. -/
def finishOk (s : SysState) (tid : Nat) (t : Task) (b : GenBundle) : SysState :=
  { s with
      beatmaps := upsert t.bid
        (commitStaged (applyReqFields
          (stageArtifacts ((List.lookup t.bid s.beatmaps).getD (freshRec t.req)) b)
          t.req b))
        s.beatmaps
      tasks := updTask tid
        (fun u =>
          if u.status = .inProgress then
            { u with status := .completed, progress := 100 }
          else u)
        s.tasks }

/-- Modelled from the spec: the orchestrator finishes an InProgress task
(§4.6) — on pipeline success the staged artifacts are committed atomically
and the task completes at 100; on any stage failure the store aborts,
previously committed artifacts stay untouched, and the task moves to Error
with a descriptive message. -/
def completeTask (s : SysState) (tid : Nat) : SysState :=
  match List.lookup tid s.tasks with
  | none => s
  | some t =>
    if t.status = .inProgress then
      match pipeline t.req with
      | .error e => finishError s tid t e
      | .ok b => finishOk s tid t b
    else s

/-- Modelled from the spec: a metadata-edit request — partial field set
(§6). -/
structure MetaEdit where
  title : Option String
  artist : Option String
  songMap : Option Nat
  difficultyOverride : Option Int
deriving DecidableEq

/-- The immediately applied fields of an edit (title/artist/songMap need no
regeneration). -/
def applyEditFields (rec : BeatmapRec) (e : MetaEdit) : BeatmapRec :=
  { rec with
      title := e.title.getD rec.title
      artist := e.artist.getD rec.artist
      songMap := e.songMap.getD rec.songMap }

/-- The regeneration request built from the edited record and the new
explicit difficulty. -/
def regenRequest (rec : BeatmapRec) (d : Int) : GenRequest :=
  ⟨rec.title, rec.artist, rec.songMap, some d, rec.source⟩

/-- Response of the metadata-edit entry point. -/
inductive EditResult where
  | notFound
  | ack
  | busy
  | regen : Nat → EditResult
deriving DecidableEq

/-- Modelled from the spec: regeneration request consumed from the
metadata-edit layer (§6) — title/artist/songMap-only changes apply
immediately with an acknowledgment and no new task; a difficulty-affecting
change enqueues a regeneration task for the same beatmap (rejected while a
task is already active). -/
def editBeatmap (s : SysState) (bid : Nat) (e : MetaEdit) : SysState × EditResult :=
  match List.lookup bid s.beatmaps with
  | none => (s, .notFound)
  | some rec =>
    let rec1 := applyEditFields rec e
    match e.difficultyOverride with
    | none => ({ s with beatmaps := upsert bid rec1 s.beatmaps }, .ack)
    | some d =>
      if hasActiveTask s bid then (s, .busy)
      else
        ({ s with
            beatmaps := upsert bid rec1 s.beatmaps
            tasks := (s.nextTask, ⟨bid, regenRequest rec1 d, .queued, 0⟩) :: s.tasks
            nextTask := s.nextTask + 1 },
          .regen s.nextTask)

/-- The events the orchestrator's state evolves by. -/
inductive Event where
  | request : Nat → GenRequest → Event
  | start : Nat → Event
  | report : Nat → Nat → Event
  | complete : Nat → Event
  | edit : Nat → MetaEdit → Event

/-- One orchestrator step. -/
def applyEvent (s : SysState) : Event → SysState
  | .request bid req => (requestGen s bid req).1
  | .start tid => startTask s tid
  | .report tid p => reportProgress s tid p
  | .complete tid => completeTask s tid
  | .edit bid e => (editBeatmap s bid e).1

/-- The empty initial state. -/
def initState : SysState := ⟨[], [], 0⟩

/-- States reachable from the empty state by orchestrator events. -/
inductive Reachable : SysState → Prop
  | init : Reachable initState
  | step {s : SysState} (e : Event) : Reachable s → Reachable (applyEvent s e)

/-- The artifact set visible for a beatmap (spec §4.5
`currentArtifacts`). -/
def currentArtifacts (s : SysState) (bid : Nat) : Option ArtifactSet :=
  (List.lookup bid s.beatmaps).bind (·.committed)

/-- The beatmap's current `artifactVersion`, when it exists. -/
def artifactVersionOf (s : SysState) (bid : Nat) : Option Nat :=
  (List.lookup bid s.beatmaps).map (·.artifactVersion)

/-! ## Executable system invariants -/

/-- No two entries of the task registry hold active tasks for the same
beatmap. -/
def noDupActive : List (Nat × Task) → Bool
  | [] => true
  | p :: rest => (!(isActive p.2.status && rest.any (activeFor p.2.bid))) && noDupActive rest

/-- Every registered task id is below the fresh counter. -/
def tasksBelow (n : Nat) (l : List (Nat × Task)) : Bool :=
  l.all (fun p => decide (p.1 < n))

/-- Every task's progress is within 0..100. -/
def progressOk (l : List (Nat × Task)) : Bool :=
  l.all (fun p => decide (p.2.progress ≤ 100))

/-- The committed artifact set of a record is uniformly tagged with the
record's `artifactVersion` — no mix of two versions is visible. -/
def recCommitOk (r : BeatmapRec) : Bool :=
  match r.committed with
  | none => true
  | some a => (a.chartVersion == r.artifactVersion) && (a.infoVersion == r.artifactVersion)

/-- Catalog-wide version uniformity. -/
def committedUniform (l : List (Nat × BeatmapRec)) : Bool :=
  l.all (fun p => recCommitOk p.2)

/-- The conjunction of the executable invariants preserved by every
orchestrator event. -/
def sysInv (s : SysState) : Bool :=
  noDupActive s.tasks && tasksBelow s.nextTask s.tasks &&
    progressOk s.tasks && committedUniform s.beatmaps

/-- One-directional status steps: stay, Queued → InProgress, or InProgress →
terminal. -/
def statusStepOK : TaskStatus → TaskStatus → Bool
  | .queued, .queued => true
  | .queued, .inProgress => true
  | .inProgress, .inProgress => true
  | .inProgress, .completed => true
  | .inProgress, .error _ => true
  | .completed, .completed => true
  | .error m, .error m2 => m == m2
  | _, _ => false

/-! ## Registry and catalog lemmas -/

lemma lookup_updTask_self (tid : Nat) (f : Task → Task) :
    ∀ l, List.lookup tid (updTask tid f l) = (List.lookup tid l).map f := by
  intro l
  induction l with
  | nil => rfl
  | cons p rest ih =>
    obtain ⟨k, v⟩ := p
    by_cases h : k = tid
    · subst h
      rw [updTask, List.map_cons, if_pos rfl]
      rw [List.lookup_cons, List.lookup_cons]
      simp only [beq_self_eq_true]
      rfl
    · have h2 : tid ≠ k := fun hc => h hc.symm
      rw [updTask, List.map_cons, if_neg h]
      rw [List.lookup_cons, List.lookup_cons]
      simp only [beq_false_of_ne h2]
      exact ih

lemma lookup_updTask_ne (tid tid2 : Nat) (f : Task → Task) (h : tid2 ≠ tid) :
    ∀ l, List.lookup tid2 (updTask tid f l) = List.lookup tid2 l := by
  intro l
  induction l with
  | nil => rfl
  | cons p rest ih =>
    obtain ⟨k, v⟩ := p
    by_cases hk : k = tid
    · subst hk
      rw [updTask, List.map_cons, if_pos rfl]
      rw [List.lookup_cons, List.lookup_cons]
      simp only [beq_false_of_ne h]
      exact ih
    · rw [updTask, List.map_cons, if_neg hk]
      rw [List.lookup_cons, List.lookup_cons]
      cases hbe : tid2 == k
      · exact ih
      · rfl

lemma lookup_upsert_self {α : Type} (k : Nat) (v : α) :
    ∀ l, List.lookup k (upsert k v l) = some v := by
  intro l
  induction l with
  | nil =>
    rw [upsert, List.lookup_cons]
    simp only [beq_self_eq_true]
  | cons p rest ih =>
    obtain ⟨k2, v2⟩ := p
    by_cases h : k2 = k
    · subst h
      rw [upsert, if_pos rfl, List.lookup_cons]
      simp only [beq_self_eq_true]
    · rw [upsert, if_neg h, List.lookup_cons]
      simp only [beq_false_of_ne fun hc => h hc.symm]
      exact ih

lemma lookup_upsert_ne {α : Type} (k k2 : Nat) (v : α) (h : k2 ≠ k) :
    ∀ l, List.lookup k2 (upsert k v l) = List.lookup k2 l := by
  intro l
  induction l with
  | nil =>
    rw [upsert, List.lookup_cons]
    simp only [beq_false_of_ne h]
  | cons p rest ih =>
    obtain ⟨k3, v3⟩ := p
    by_cases hk : k3 = k
    · subst hk
      rw [upsert, if_pos rfl]
      rw [List.lookup_cons, List.lookup_cons]
      simp only [beq_false_of_ne h]
    · rw [upsert, if_neg hk]
      rw [List.lookup_cons, List.lookup_cons]
      cases hbe : k2 == k3
      · exact ih
      · rfl

lemma lookup_of_all {α : Type} (q : α → Bool) :
    ∀ l : List (Nat × α), l.all (fun p => q p.2) = true →
      ∀ k v, List.lookup k l = some v → q v = true := by
  intro l
  induction l with
  | nil => intro _ k v hv; cases hv
  | cons p rest ih =>
    intro hall k v hv
    obtain ⟨k2, v2⟩ := p
    rw [List.all_cons, Bool.and_eq_true] at hall
    rw [List.lookup_cons] at hv
    match hbe : k == k2 with
    | true =>
      rw [hbe] at hv
      cases hv
      exact hall.1
    | false =>
      rw [hbe] at hv
      exact ih hall.2 k v hv

lemma lookup_below (n : Nat) :
    ∀ l, tasksBelow n l = true → ∀ k v, List.lookup k l = some v → k < n := by
  intro l
  induction l with
  | nil => intro _ k v hv; cases hv
  | cons p rest ih =>
    intro hall k v hv
    obtain ⟨k2, v2⟩ := p
    rw [tasksBelow, List.all_cons, Bool.and_eq_true] at hall
    rw [List.lookup_cons] at hv
    match hbe : k == k2 with
    | true =>
      have : k = k2 := by simpa using hbe
      subst this
      simpa using hall.1
    | false =>
      rw [hbe] at hv
      exact ih hall.2 k v hv

lemma tasksBelow_mono (n m : Nat) (h : n ≤ m) :
    ∀ l, tasksBelow n l = true → tasksBelow m l = true := by
  intro l
  induction l with
  | nil => intro _; rfl
  | cons p rest ih =>
    intro hall
    rw [tasksBelow, List.all_cons, Bool.and_eq_true] at hall ⊢
    refine ⟨by simp at hall ⊢; omega, ih hall.2⟩

lemma tasksBelow_updTask (n : Nat) (tid : Nat) (f : Task → Task) :
    ∀ l, tasksBelow n l = true → tasksBelow n (updTask tid f l) = true := by
  intro l
  induction l with
  | nil => intro _; rfl
  | cons p rest ih =>
    intro hall
    rw [tasksBelow, List.all_cons, Bool.and_eq_true] at hall
    rw [updTask, List.map_cons, tasksBelow, List.all_cons, Bool.and_eq_true]
    constructor
    · split <;> simpa using hall.1
    · exact ih hall.2

lemma progressOk_updTask (tid : Nat) (f : Task → Task)
    (hf : ∀ t, t.progress ≤ 100 → (f t).progress ≤ 100) :
    ∀ l, progressOk l = true → progressOk (updTask tid f l) = true := by
  intro l
  induction l with
  | nil => intro _; rfl
  | cons p rest ih =>
    intro hall
    rw [progressOk, List.all_cons, Bool.and_eq_true] at hall
    rw [updTask, List.map_cons, progressOk, List.all_cons, Bool.and_eq_true]
    constructor
    · split
      · simpa using hf p.2 (by simpa using hall.1)
      · simpa using hall.1
    · exact ih hall.2

lemma any_activeFor_updTask (bid tid : Nat) (f : Task → Task)
    (hb : ∀ t, (f t).bid = t.bid)
    (ha : ∀ t, isActive (f t).status = true → isActive t.status = true) :
    ∀ l, (updTask tid f l).any (activeFor bid) = true → l.any (activeFor bid) = true := by
  intro l
  induction l with
  | nil => intro h; cases h
  | cons p rest ih =>
    intro h
    rw [updTask, List.map_cons, List.any_cons, Bool.or_eq_true] at h
    rw [List.any_cons, Bool.or_eq_true]
    rcases h with h | h
    · left
      revert h
      split
      · intro h
        rw [activeFor, Bool.and_eq_true] at h ⊢
        exact ⟨ha p.2 h.1, by rw [← hb p.2]; exact h.2⟩
      · exact fun h => h
    · exact Or.inr (ih h)

lemma any_activeFor_updTask_false (bid tid : Nat) (f : Task → Task)
    (hb : ∀ t, (f t).bid = t.bid)
    (ha : ∀ t, isActive (f t).status = true → isActive t.status = true)
    (l : List (Nat × Task)) (h : l.any (activeFor bid) = false) :
    (updTask tid f l).any (activeFor bid) = false := by
  cases hany : (updTask tid f l).any (activeFor bid)
  · rfl
  · exact absurd (any_activeFor_updTask bid tid f hb ha l hany) (by simp [h])

lemma noDupActive_updTask (tid : Nat) (f : Task → Task)
    (hb : ∀ t, (f t).bid = t.bid)
    (ha : ∀ t, isActive (f t).status = true → isActive t.status = true) :
    ∀ l, noDupActive l = true → noDupActive (updTask tid f l) = true := by
  intro l
  induction l with
  | nil => intro _; rfl
  | cons p rest ih =>
    intro h
    rw [noDupActive, Bool.and_eq_true] at h
    rw [updTask, List.map_cons, noDupActive, Bool.and_eq_true]
    have hrest : noDupActive (updTask tid f rest) = true := ih h.2
    rw [updTask] at hrest
    refine ⟨?_, hrest⟩
    have hhead : (isActive p.2.status && rest.any (activeFor p.2.bid)) = false := by
      have := h.1
      rwa [Bool.not_eq_true'] at this
    rw [Bool.not_eq_true', Bool.and_eq_false_iff]
    rw [Bool.and_eq_false_iff] at hhead
    by_cases heq : p.1 = tid
    · rw [if_pos heq]
      rcases hhead with hh | hh
      · left
        cases hact : isActive ((f p.2).status)
        · rfl
        · exact absurd (ha p.2 hact) (by simp [hh])
      · right
        rw [hb p.2]
        have := any_activeFor_updTask_false p.2.bid tid f hb ha rest hh
        rwa [updTask] at this
    · rw [if_neg heq]
      rcases hhead with hh | hh
      · exact Or.inl hh
      · right
        have := any_activeFor_updTask_false p.2.bid tid f hb ha rest hh
        rwa [updTask] at this

lemma committedUniform_upsert (k : Nat) (rec : BeatmapRec) :
    ∀ l, committedUniform l = true → recCommitOk rec = true →
      committedUniform (upsert k rec l) = true := by
  intro l
  induction l with
  | nil =>
    intro _ hrec
    simpa [committedUniform, upsert] using hrec
  | cons p rest ih =>
    intro hall hrec
    rw [committedUniform, List.all_cons, Bool.and_eq_true] at hall
    rw [upsert]
    split
    · rw [committedUniform, List.all_cons, Bool.and_eq_true]
      exact ⟨hrec, hall.2⟩
    · rw [committedUniform, List.all_cons, Bool.and_eq_true]
      exact ⟨hall.1, ih hall.2 hrec⟩

lemma requestGen_reject (s : SysState) (bid : Nat) (req : GenRequest)
    (h : hasActiveTask s bid = true) :
    requestGen s bid req = (s, .error .taskInProgress) := by
  rw [requestGen, if_pos h]

lemma requestGen_accept (s : SysState) (bid : Nat) (req : GenRequest)
    (h : hasActiveTask s bid = false) :
    requestGen s bid req =
      ({ s with
          tasks := (s.nextTask, ⟨bid, req, .queued, 0⟩) :: s.tasks
          nextTask := s.nextTask + 1 },
        .ok s.nextTask) := by
  rw [requestGen, if_neg (by simp [h])]

lemma editBeatmap_notFound (s : SysState) (bid : Nat) (e : MetaEdit)
    (h : List.lookup bid s.beatmaps = none) : editBeatmap s bid e = (s, .notFound) := by
  simp only [editBeatmap, h]

lemma editBeatmap_ack (s : SysState) (bid : Nat) (e : MetaEdit) (rec : BeatmapRec)
    (hrec : List.lookup bid s.beatmaps = some rec) (hd : e.difficultyOverride = none) :
    editBeatmap s bid e =
      ({ s with beatmaps := upsert bid (applyEditFields rec e) s.beatmaps }, .ack) := by
  simp only [editBeatmap, hrec, hd]

lemma editBeatmap_busy (s : SysState) (bid : Nat) (e : MetaEdit) (rec : BeatmapRec)
    (d : Int) (hrec : List.lookup bid s.beatmaps = some rec)
    (hd : e.difficultyOverride = some d) (hhat : hasActiveTask s bid = true) :
    editBeatmap s bid e = (s, .busy) := by
  simp only [editBeatmap, hrec, hd]
  rw [if_pos hhat]

lemma editBeatmap_regen (s : SysState) (bid : Nat) (e : MetaEdit) (rec : BeatmapRec)
    (d : Int) (hrec : List.lookup bid s.beatmaps = some rec)
    (hd : e.difficultyOverride = some d) (hhat : hasActiveTask s bid = false) :
    editBeatmap s bid e =
      ({ s with
          beatmaps := upsert bid (applyEditFields rec e) s.beatmaps
          tasks :=
            (s.nextTask,
              ⟨bid, regenRequest (applyEditFields rec e) d, .queued, 0⟩) :: s.tasks
          nextTask := s.nextTask + 1 },
        .regen s.nextTask) := by
  simp only [editBeatmap, hrec, hd]
  rw [if_neg (by simp [hhat])]

lemma sysInv_parts {s : SysState} (h : sysInv s = true) :
    noDupActive s.tasks = true ∧ tasksBelow s.nextTask s.tasks = true ∧
      progressOk s.tasks = true ∧ committedUniform s.beatmaps = true := by
  rw [sysInv, Bool.and_eq_true, Bool.and_eq_true, Bool.and_eq_true] at h
  exact ⟨h.1.1.1, h.1.1.2, h.1.2, h.2⟩

lemma sysInv_intro {s : SysState} (h1 : noDupActive s.tasks = true)
    (h2 : tasksBelow s.nextTask s.tasks = true) (h3 : progressOk s.tasks = true)
    (h4 : committedUniform s.beatmaps = true) : sysInv s = true := by
  rw [sysInv, Bool.and_eq_true, Bool.and_eq_true, Bool.and_eq_true]
  exact ⟨⟨⟨h1, h2⟩, h3⟩, h4⟩

lemma sysInv_request (s : SysState) (bid : Nat) (req : GenRequest)
    (h : sysInv s = true) : sysInv (requestGen s bid req).1 = true := by
  obtain ⟨h1, h2, h3, h4⟩ := sysInv_parts h
  cases hhat : hasActiveTask s bid
  · rw [requestGen_accept s bid req hhat]
    apply sysInv_intro <;> dsimp only
    · rw [noDupActive, Bool.and_eq_true]
      refine ⟨?_, h1⟩
      rw [hasActiveTask] at hhat
      simp [isActive, hhat]
    · rw [tasksBelow, List.all_cons, Bool.and_eq_true]
      refine ⟨by simp, ?_⟩
      exact tasksBelow_mono s.nextTask (s.nextTask + 1) (by omega) s.tasks h2
    · rw [progressOk, List.all_cons, Bool.and_eq_true]
      exact ⟨by simp, h3⟩
    · exact h4
  · rw [requestGen_reject s bid req hhat]
    exact h

lemma completeTask_none (s : SysState) (tid : Nat)
    (hlk : List.lookup tid s.tasks = none) : completeTask s tid = s := by
  simp only [completeTask, hlk]

lemma completeTask_notIP (s : SysState) (tid : Nat) (t : Task)
    (hlk : List.lookup tid s.tasks = some t) (hst : ¬ t.status = .inProgress) :
    completeTask s tid = s := by
  simp only [completeTask, hlk]
  rw [if_neg hst]

lemma completeTask_error (s : SysState) (tid : Nat) (t : Task) (e : PipelineError)
    (hlk : List.lookup tid s.tasks = some t) (hst : t.status = .inProgress)
    (hpl : pipeline t.req = .error e) : completeTask s tid = finishError s tid t e := by
  simp only [completeTask, hlk]
  rw [if_pos hst]
  simp only [hpl]

lemma completeTask_ok (s : SysState) (tid : Nat) (t : Task) (b : GenBundle)
    (hlk : List.lookup tid s.tasks = some t) (hst : t.status = .inProgress)
    (hpl : pipeline t.req = .ok b) : completeTask s tid = finishOk s tid t b := by
  simp only [completeTask, hlk]
  rw [if_pos hst]
  simp only [hpl]

lemma sysInv_start (s : SysState) (tid : Nat) (h : sysInv s = true) :
    sysInv (startTask s tid) = true := by
  obtain ⟨h1, h2, h3, h4⟩ := sysInv_parts h
  rw [startTask]
  apply sysInv_intro <;> dsimp only
  · refine noDupActive_updTask tid _ ?_ ?_ s.tasks h1
    · intro u
      split <;> rfl
    · intro u hu
      by_cases hq : u.status = .queued
      · rw [hq]
        rfl
      · rwa [if_neg hq] at hu
  · exact tasksBelow_updTask s.nextTask tid _ s.tasks h2
  · refine progressOk_updTask tid _ ?_ s.tasks h3
    intro u hu
    split <;> exact hu
  · exact h4

lemma sysInv_report (s : SysState) (tid p : Nat) (h : sysInv s = true) :
    sysInv (reportProgress s tid p) = true := by
  obtain ⟨h1, h2, h3, h4⟩ := sysInv_parts h
  rw [reportProgress]
  apply sysInv_intro <;> dsimp only
  · refine noDupActive_updTask tid _ ?_ ?_ s.tasks h1
    · intro u
      split <;> rfl
    · intro u hu
      by_cases hq : u.status = .inProgress
      · rw [hq]
        rfl
      · rwa [if_neg hq] at hu
  · exact tasksBelow_updTask s.nextTask tid _ s.tasks h2
  · refine progressOk_updTask tid _ ?_ s.tasks h3
    intro u hu
    split
    · simp only []
      omega
    · exact hu
  · exact h4

lemma recCommitOk_commit (rec0 : BeatmapRec) (req : GenRequest) (b : GenBundle) :
    recCommitOk (commitStaged (applyReqFields (stageArtifacts rec0 b) req b)) = true := by
  simp [commitStaged, applyReqFields, stageArtifacts, recCommitOk]

lemma sysInv_complete (s : SysState) (tid : Nat) (h : sysInv s = true) :
    sysInv (completeTask s tid) = true := by
  obtain ⟨h1, h2, h3, h4⟩ := sysInv_parts h
  cases hlk : List.lookup tid s.tasks with
  | none => rw [completeTask_none s tid hlk]; exact h
  | some t =>
    by_cases hst : t.status = .inProgress
    · cases hpl : pipeline t.req with
      | error e =>
        rw [completeTask_error s tid t e hlk hst hpl, finishError]
        apply sysInv_intro <;> dsimp only
        · refine noDupActive_updTask tid _ ?_ ?_ s.tasks h1
          · intro u
            split <;> rfl
          · intro u hu
            by_cases hq : u.status = .inProgress
            · rw [if_pos hq] at hu
              simp [isActive] at hu
            · rwa [if_neg hq] at hu
        · exact tasksBelow_updTask s.nextTask tid _ s.tasks h2
        · refine progressOk_updTask tid _ ?_ s.tasks h3
          intro u hu
          split <;> exact hu
        · cases hrec : List.lookup t.bid s.beatmaps with
          | none => exact h4
          | some rec =>
            refine committedUniform_upsert t.bid (abortStaged rec) s.beatmaps h4 ?_
            have : recCommitOk (abortStaged rec) = recCommitOk rec := rfl
            rw [this]
            exact lookup_of_all recCommitOk s.beatmaps h4 t.bid rec hrec
      | ok b =>
        rw [completeTask_ok s tid t b hlk hst hpl, finishOk]
        apply sysInv_intro <;> dsimp only
        · refine noDupActive_updTask tid _ ?_ ?_ s.tasks h1
          · intro u
            split <;> rfl
          · intro u hu
            by_cases hq : u.status = .inProgress
            · rw [if_pos hq] at hu
              simp [isActive] at hu
            · rwa [if_neg hq] at hu
        · exact tasksBelow_updTask s.nextTask tid _ s.tasks h2
        · refine progressOk_updTask tid _ ?_ s.tasks h3
          intro u hu
          split
          · exact Nat.le_refl 100
          · exact hu
        · exact committedUniform_upsert t.bid _ s.beatmaps h4 (recCommitOk_commit _ t.req b)
    · rw [completeTask_notIP s tid t hlk hst]
      exact h

lemma sysInv_edit (s : SysState) (bid : Nat) (e : MetaEdit) (h : sysInv s = true) :
    sysInv (editBeatmap s bid e).1 = true := by
  obtain ⟨h1, h2, h3, h4⟩ := sysInv_parts h
  cases hrec : List.lookup bid s.beatmaps with
  | none => rw [editBeatmap_notFound s bid e hrec]; exact h
  | some rec =>
    have hok : recCommitOk (applyEditFields rec e) = true := by
      have : recCommitOk (applyEditFields rec e) = recCommitOk rec := rfl
      rw [this]
      exact lookup_of_all recCommitOk s.beatmaps h4 bid rec hrec
    cases hd : e.difficultyOverride with
    | none =>
      rw [editBeatmap_ack s bid e rec hrec hd]
      apply sysInv_intro <;> dsimp only
      · exact h1
      · exact h2
      · exact h3
      · exact committedUniform_upsert bid _ s.beatmaps h4 hok
    | some d =>
      cases hhat : hasActiveTask s bid
      · rw [editBeatmap_regen s bid e rec d hrec hd hhat]
        apply sysInv_intro <;> dsimp only
        · rw [noDupActive, Bool.and_eq_true]
          refine ⟨?_, h1⟩
          rw [hasActiveTask] at hhat
          simp [isActive, hhat]
        · rw [tasksBelow, List.all_cons, Bool.and_eq_true]
          refine ⟨by simp, ?_⟩
          exact tasksBelow_mono s.nextTask (s.nextTask + 1) (by omega) s.tasks h2
        · rw [progressOk, List.all_cons, Bool.and_eq_true]
          exact ⟨by simp, h3⟩
        · exact committedUniform_upsert bid _ s.beatmaps h4 hok
      · rw [editBeatmap_busy s bid e rec d hrec hd hhat]
        exact h

/-- Every orchestrator event preserves the executable system
invariants. -/
lemma sysInv_applyEvent (s : SysState) (e : Event) (h : sysInv s = true) :
    sysInv (applyEvent s e) = true := by
  cases e with
  | request bid req => exact sysInv_request s bid req h
  | start tid => exact sysInv_start s tid h
  | report tid p => exact sysInv_report s tid p h
  | complete tid => exact sysInv_complete s tid h
  | edit bid e2 => exact sysInv_edit s bid e2 h

/-- Every reachable orchestrator state satisfies the system invariants. -/
lemma reachable_inv {s : SysState} (h : Reachable s) : sysInv s = true := by
  induction h with
  | init => rfl
  | step e _ ih => exact sysInv_applyEvent _ e ih

/-! ## Helper lemmas -/

/-- When every extraction method throws, the loop returns its accumulator
unchanged. -/
lemma mp3Loop_all_none (base : String) (acc : MP3Result) :
    ∀ ms : List (Option JsMeta), (∀ m ∈ ms, m = none) → mp3Loop base acc ms = acc := by
  intro ms
  induction ms with
  | nil => intro _; rfl
  | cons m rest ih =>
    intro h
    have hm : m = none := h m (List.mem_cons_self m rest)
    subst hm
    exact ih fun m hm => h m (List.mem_cons_of_mem _ hm)

/-- When no successful method reports an artist, the loop leaves an empty
artist empty. -/
lemma mp3Loop_artist_empty (base : String) :
    ∀ (ms : List (Option JsMeta)) (acc : MP3Result), acc.artist = "" →
      (∀ md, some md ∈ ms → md.artist = "") → (mp3Loop base acc ms).artist = "" := by
  intro ms
  induction ms with
  | nil => intro acc h _; exact h
  | cons m rest ih =>
    intro acc hacc hms
    match m with
    | none => exact ih acc hacc fun md hmd => hms md (List.mem_cons_of_mem _ hmd)
    | some md =>
      have hart : md.artist = "" := hms md (List.mem_cons_self _ _)
      have hnew :
          (if md.artist ≠ "" then md.artist else acc.artist) = "" := by
        rw [hart]; simpa using hacc
      have key : ∀ acc2 : MP3Result, acc2.artist = "" →
          (if acc2.title ≠ "" ∧ acc2.artist ≠ "" ∧ acc2.artwork ≠ none then acc2
           else mp3Loop base acc2 rest).artist = "" := by
        intro acc2 h2
        rw [if_neg (fun hc => hc.2.1 h2)]
        exact ih acc2 h2 fun md2 hmd2 => hms md2 (List.mem_cons_of_mem _ hmd2)
      rw [mp3Loop]
      exact key _ (by simpa using hnew)

/-- The density bucket always lands in a valid tier. -/
lemma densityBucket_le (density : Nat) : densityBucket density ≤ 3 := by
  unfold densityBucket
  split_ifs <;> omega

/-- The auto classifier always lands in a valid tier. -/
lemma autoClassify_le (ao : AnalyzerOutput) : autoClassify ao ≤ 3 := by
  unfold autoClassify
  split
  · exact min_le_right _ 3
  · exact densityBucket_le _

/-- Every tier's minimum spacing is positive. -/
lemma minSpacing_pos (t : Nat) : 1 ≤ minSpacingTenths t := by
  rcases t with _ | _ | _ | t <;> simp [minSpacingTenths]

/-- The greedy spacing filter emits a sequence whose consecutive elements
are at least `sp` apart, and (when seeded) entirely at least `sp` past the
seed. -/
lemma keepSpaced_bound_chain (sp : Nat) :
    ∀ (l : List Nat) (last : Option Nat),
      List.Chain' (fun a b => a + sp ≤ b) (keepSpaced sp l last) ∧
      (∀ prev, last = some prev → ∀ x ∈ keepSpaced sp l last, prev + sp ≤ x) := by
  intro l
  induction l with
  | nil =>
    intro last
    constructor
    · simp [keepSpaced]
    · intro prev _ x hx
      simp [keepSpaced] at hx
  | cons t rest ih =>
    intro last
    match last with
    | none =>
      have h := ih (some t)
      constructor
      · rw [keepSpaced]
        rw [List.chain'_cons']
        refine ⟨?_, h.1⟩
        intro y hy
        exact h.2 t rfl y (List.mem_of_mem_head? hy)
      · intro prev hprev
        cases hprev
    | some prev =>
      by_cases hsp : prev + sp ≤ t
      · have h := ih (some t)
        have hres : keepSpaced sp (t :: rest) (some prev) = t :: keepSpaced sp rest (some t) := by
          rw [keepSpaced, if_pos hsp]
        constructor
        · rw [hres, List.chain'_cons']
          refine ⟨?_, h.1⟩
          intro y hy
          exact h.2 t rfl y (List.mem_of_mem_head? hy)
        · intro prev2 hprev2 x hx
          cases hprev2
          rw [hres] at hx
          rcases List.mem_cons.mp hx with hx | hx
          · omega
          · have := h.2 t rfl x hx
            omega
      · have h := ih (some prev)
        have hres : keepSpaced sp (t :: rest) (some prev) = keepSpaced sp rest (some prev) := by
          rw [keepSpaced, if_neg hsp]
        constructor
        · rw [hres]
          exact h.1
        · intro prev2 hprev2 x hx
          cases hprev2
          rw [hres] at hx
          exact h.2 prev rfl x hx

/-- The note constructor only decorates the timestamps with lanes. -/
lemma mkNotes_times : ∀ (i : Nat) (ts : List Nat),
    (mkNotes i ts).map NoteEvent.timeTenths = ts := by
  intro i ts
  induction ts generalizing i with
  | nil => rfl
  | cons t rest ih => simp [mkNotes, ih]

/-! ## C10 — extractMP3Metadata fallback behavior -/

/-- C10 (counterexample): the claim as stated is false on the code.  With
every strategy failing, the file name `".mp3"` strips to an empty base name
and the returned title is empty, not non-empty; and when a strategy supplies
a title (`"X"`) but no artist for the file `"A - B.mp3"`, the dash rule sets
artist `"A"` but keeps the strategy's title `"X"` instead of taking
`"B"` from after the dash. -/
theorem extractMP3Metadata_claim_cx :
    (extractMP3Metadata ".mp3" [none, none, none]).title = "" ∧
    (extractMP3Metadata "A - B.mp3"
        [some ⟨"X", "", "", none, none⟩, none, none]).artist = "A" ∧
    (extractMP3Metadata "A - B.mp3"
        [some ⟨"X", "", "", none, none⟩, none, none]).title = "X" ∧
    jsDashSplit (jsStripExt "A - B.mp3") = some ("A", "B") := by
  refine ⟨by decide, by decide, by decide, by decide⟩

/-- C10 (amended): `extractMP3Metadata` is total over the modelled strategy
outcomes; the strategies are folded in their fixed order with each failure
skipped; when every strategy fails, the pre-dash result is exactly title =
base file name (extension stripped — possibly empty) with an empty artist;
when no strategy yields an artist, the loop keeps the artist empty, and if
the base name then contains a dash the artist becomes the trimmed text
before the first dash while the title is replaced by the trimmed text after
it only when no strategy replaced the title (it still equals the base
name). -/
theorem extractMP3Metadata_fallback (name : String) (ms : List (Option JsMeta)) :
    ((∀ m ∈ ms, m = none) →
      mp3Loop (jsStripExt name) ⟨jsStripExt name, "", "", none, none⟩ ms =
        ⟨jsStripExt name, "", "", none, none⟩) ∧
    ((∀ md, some md ∈ ms → md.artist = "") →
      (mp3Loop (jsStripExt name) ⟨jsStripExt name, "", "", none, none⟩ ms).artist = "") ∧
    ((mp3Loop (jsStripExt name) ⟨jsStripExt name, "", "", none, none⟩ ms).artist ≠ "" →
      extractMP3Metadata name ms =
        mp3Loop (jsStripExt name) ⟨jsStripExt name, "", "", none, none⟩ ms) ∧
    ((mp3Loop (jsStripExt name) ⟨jsStripExt name, "", "", none, none⟩ ms).artist = "" →
      (jsDashSplit (jsStripExt name) = none →
        extractMP3Metadata name ms =
          mp3Loop (jsStripExt name) ⟨jsStripExt name, "", "", none, none⟩ ms) ∧
      (∀ a t, jsDashSplit (jsStripExt name) = some (a, t) →
        extractMP3Metadata name ms =
          { mp3Loop (jsStripExt name) ⟨jsStripExt name, "", "", none, none⟩ ms with
              artist := a
              title :=
                if (mp3Loop (jsStripExt name)
                      ⟨jsStripExt name, "", "", none, none⟩ ms).title = jsStripExt name
                then t
                else (mp3Loop (jsStripExt name)
                        ⟨jsStripExt name, "", "", none, none⟩ ms).title })) := by
  refine ⟨mp3Loop_all_none _ _ ms, mp3Loop_artist_empty _ ms _ rfl, ?_, ?_⟩
  · intro h
    simp only [extractMP3Metadata]
    rw [if_neg h]
  · intro h
    constructor
    · intro hd
      simp only [extractMP3Metadata]
      rw [if_pos h, hd]
    · intro a t hd
      simp only [extractMP3Metadata]
      rw [if_pos h, hd]

/-- Witness for the amended C10 on the documented example file name. -/
theorem extractMP3Metadata_fallback_witness :
    (extractMP3Metadata "The Hives - Main Offender.mp3" [none, none, none]).artist =
      "The Hives" ∧
    (extractMP3Metadata "The Hives - Main Offender.mp3" [none, none, none]).title =
      "Main Offender" := by
  have h := extractMP3Metadata_fallback "The Hives - Main Offender.mp3" [none, none, none]
  have hall : ∀ m ∈ ([none, none, none] : List (Option JsMeta)), m = none := by decide
  have hlr := h.1 hall
  have hres := (h.2.2.2 (by rw [hlr])).2 "The Hives" "Main Offender" (by decide)
  rw [hres, hlr]
  exact ⟨rfl, by decide⟩

/-! ## Orchestrator claim helpers -/

lemma statusStepOK_refl (st : TaskStatus) : statusStepOK st st = true := by
  cases st <;> simp [statusStepOK]

lemma same_lookup {tid : Nat} {l : List (Nat × Task)} {t t2 : Task}
    (hlk : List.lookup tid l = some t) (hlk2 : List.lookup tid l = some t2) : t2 = t := by
  rw [hlk] at hlk2
  exact (Option.some.inj hlk2).symm

lemma stepOK_of_eq (t t2 : Task) (h : t2 = t) :
    statusStepOK t.status t2.status = true ∧ t.progress ≤ t2.progress ∧
      (isTerminal t.status = true → t2 = t) := by
  subst h
  exact ⟨statusStepOK_refl _, Nat.le_refl _, fun _ => rfl⟩

lemma lookup_progress {l : List (Nat × Task)} (h : progressOk l = true)
    {tid : Nat} {t : Task} (hlk : List.lookup tid l = some t) : t.progress ≤ 100 := by
  rw [progressOk] at h
  exact of_decide_eq_true
    (lookup_of_all (fun u : Task => decide (u.progress ≤ 100)) l h tid t hlk)

/-! ## C3 — one active task per beatmap -/

/-- C3: in every reachable orchestrator state, no two registered tasks are
simultaneously active (Queued/InProgress) for the same beatmap, and a
generation request or a difficulty-affecting edit that arrives while an
active task exists for that beatmap is rejected (`TaskInProgressError`
resp. busy) without creating any task or changing the state. -/
theorem single_active_task_per_beatmap (s : SysState) (h : Reachable s) :
    noDupActive s.tasks = true ∧
    (∀ bid req, hasActiveTask s bid = true →
      requestGen s bid req = (s, .error .taskInProgress)) ∧
    (∀ bid e rec d, List.lookup bid s.beatmaps = some rec →
      e.difficultyOverride = some d → hasActiveTask s bid = true →
      editBeatmap s bid e = (s, .busy)) := by
  refine ⟨(sysInv_parts (reachable_inv h)).1, ?_, ?_⟩
  · intro bid req hhat
    exact requestGen_reject s bid req hhat
  · intro bid e rec d hrec hd hhat
    exact editBeatmap_busy s bid e rec d hrec hd hhat

/-- A well-formed generation request used by the concrete witnesses. -/
def demoReq : GenRequest := ⟨"Test Song", "Test Artist", 1, none, ⟨true, 120, [0, 10, 20], [], 100⟩⟩

/-- The state after one accepted generation request for beatmap 7. -/
def s1 : SysState := applyEvent initState (.request 7 demoReq)

/-- Witness for C3: with task 0 active for beatmap 7, a second request is
rejected and the registry stays duplicate-free. -/
theorem single_active_task_witness :
    noDupActive s1.tasks = true ∧
    requestGen s1 7 demoReq = (s1, .error .taskInProgress) := by
  have h := single_active_task_per_beatmap s1
    (Reachable.step (.request 7 demoReq) Reachable.init)
  exact ⟨h.1, h.2.1 7 demoReq (by decide)⟩

/-! ## C2 — failed stages abort and leave committed artifacts untouched -/

/-- C2: in every reachable state the visible artifact set of every beatmap
is uniformly tagged with its `artifactVersion` (never a partial or mixed
set), and when an InProgress task's pipeline fails at any stage, completing
it aborts: every beatmap's `currentArtifacts` is exactly what it was before,
and the task transitions to Error with the stage's message. -/
theorem abort_preserves_artifacts (s : SysState) (h : Reachable s) :
    committedUniform s.beatmaps = true ∧
    (∀ tid t e, List.lookup tid s.tasks = some t → t.status = .inProgress →
      pipeline t.req = .error e →
      (∀ bid, currentArtifacts (completeTask s tid) bid = currentArtifacts s bid) ∧
      List.lookup tid (completeTask s tid).tasks =
        some { t with status := .error (errMsg e) }) := by
  refine ⟨(sysInv_parts (reachable_inv h)).2.2.2, ?_⟩
  intro tid t e hlk hst hpl
  rw [completeTask_error s tid t e hlk hst hpl]
  constructor
  · intro bid
    rw [finishError, currentArtifacts, currentArtifacts]
    dsimp only
    cases hrec : List.lookup t.bid s.beatmaps with
    | none => rfl
    | some rec =>
      by_cases hb : bid = t.bid
      · subst hb
        rw [lookup_upsert_self, hrec]
        rfl
      · rw [lookup_upsert_ne t.bid bid _ hb]
  · rw [finishError]
    dsimp only
    rw [lookup_updTask_self, hlk]
    dsimp only [Option.map]
    rw [if_pos hst]

/-- A request whose onsets are too sparse for its 180-second duration. -/
def sparseReq : GenRequest := ⟨"Sparse", "Artist", 0, none, ⟨true, 120, [0, 600, 1200], [], 1800⟩⟩

/-- The state with the sparse task 0 InProgress for beatmap 7. -/
def s2 : SysState := applyEvent (applyEvent initState (.request 7 sparseReq)) (.start 0)

/-- Witness for C2: completing the sparse in-progress task fails with
`InsufficientOnsetsError`, leaves the beatmap's visible artifacts unchanged,
and marks the task Error. -/
theorem abort_preserves_artifacts_witness :
    currentArtifacts (completeTask s2 0) 7 = currentArtifacts s2 7 ∧
    List.lookup 0 (completeTask s2 0).tasks =
      some ⟨7, sparseReq, .error (errMsg .insufficientOnsets), 0⟩ := by
  have h := abort_preserves_artifacts s2
    (Reachable.step (.start 0) (Reachable.step (.request 7 sparseReq) Reachable.init))
  have h2 := h.2 0 ⟨7, sparseReq, .inProgress, 0⟩ .insufficientOnsets (by decide) rfl rfl
  exact ⟨h2.1 7, h2.2⟩

/-! ## C1 — Scenario A info record -/

/-- C1: for a 180.5 second track with explicit override MEDIUM and song map
DESERT, the info writer produces exactly the header row and one data row
whose Difficulty field is the numeric code 1, Song Duration field 180.5 and
Song Map field 1, in the fixed field order. -/
theorem infoWriter_scenarioA (title artist : String) (ao : AnalyzerOutput) :
    (writeInfo title artist (resolveDifficulty ao (some 1)).tier 1805 1).rows =
      [["Song Name", "Author Name", "Difficulty", "Song Duration", "Song Map"],
       [title, artist, "1", "180.5", "1"]] := by
  have hres : resolveDifficulty ao (some 1) = ⟨1, true, []⟩ := rfl
  rw [hres]
  rfl

/-! ## C4 — difficulty override validation -/

/-- C4: every resolved difficulty is a valid tier in {0,1,2,3}; an in-range
override is used unchanged (short-circuiting auto-classification, with no
warning), and an out-of-range override is clamped to the nearest valid tier
with a recorded warning, the classifier never failing. -/
theorem resolveDifficulty_valid (ao : AnalyzerOutput) (ov : Option Int) :
    (resolveDifficulty ao ov).tier ≤ 3 ∧
    (∀ v, ov = some v → 0 ≤ v → v ≤ 3 →
      resolveDifficulty ao ov = ⟨v.toNat, true, []⟩) ∧
    (∀ v, ov = some v → (v < 0 ∨ 3 < v) →
      (resolveDifficulty ao ov).tier = clampTier v ∧
        (resolveDifficulty ao ov).warnings ≠ []) := by
  refine ⟨?_, ?_, ?_⟩
  · match ov with
    | none => exact autoClassify_le ao
    | some v =>
      simp only [resolveDifficulty]
      split
      · next hv => simpa using Int.toNat_le.mpr hv.2
      · next =>
        simp only [clampTier]
        split
        · omega
        · split
          · omega
          · next h1 h2 => simpa using Int.toNat_le.mpr (by omega)
  · intro v hv h0 h3
    subst hv
    simp only [resolveDifficulty, if_pos (And.intro h0 h3)]
  · intro v hv hout
    subst hv
    have hneg : ¬ (0 ≤ v ∧ v ≤ 3) := by omega
    constructor
    · simp [resolveDifficulty, if_neg hneg]
    · simp [resolveDifficulty, if_neg hneg]

/-- Analyzer output used by concrete witnesses. -/
def demoAO : AnalyzerOutput := ⟨120, [0, 10, 20], [], 100⟩

/-- Witness for C4: the override 5 is clamped to 3 with a warning, and the
in-range override 2 is used unchanged. -/
theorem resolveDifficulty_valid_witness :
    (resolveDifficulty demoAO (some 5)).tier = clampTier 5 ∧
    (resolveDifficulty demoAO (some 5)).warnings ≠ [] ∧
    resolveDifficulty demoAO (some 2) = ⟨2, true, []⟩ := by
  refine ⟨((resolveDifficulty_valid demoAO (some 5)).2.2 5 rfl (by decide)).1,
    ((resolveDifficulty_valid demoAO (some 5)).2.2 5 rfl (by decide)).2,
    (resolveDifficulty_valid demoAO (some 2)).2.1 2 rfl (by decide) (by decide)⟩

/-! ## C5 — synthesizer determinism -/

/-- C5: the chart synthesizer is deterministic — two invocations on
identical onset sequences, tiers and durations produce identical note
sequences. -/
theorem synthesize_deterministic (o1 : List Nat) (t1 d1 : Nat)
    (o2 : List Nat) (t2 d2 : Nat) (ho : o1 = o2) (ht : t1 = t2) (hd : d1 = d2) :
    synthesize o1 t1 d1 = synthesize o2 t2 d2 := by
  subst ho; subst ht; subst hd; rfl

/-- Witness for C5 at a concrete invocation pair. -/
theorem synthesize_deterministic_witness :
    synthesize [0, 10, 20] 1 50 = synthesize [0, 10, 20] 1 50 :=
  synthesize_deterministic [0, 10, 20] 1 50 [0, 10, 20] 1 50 rfl rfl rfl

/-! ## C6 — note spacing and ordering -/

/-- C6: every note sequence the synthesizer produces has strictly increasing
timestamps, no two consecutive events closer than the tier's minimum
spacing, and that spacing threshold strictly decreases as the tier rises
(higher tiers permit denser charts). -/
theorem synthesize_spacing (onsets : List Nat) (tier dur : Nat) (notes : List NoteEvent)
    (h : synthesize onsets tier dur = .ok notes) :
    List.Chain' (fun a b => a.timeTenths + minSpacingTenths tier ≤ b.timeTenths) notes ∧
    List.Chain' (fun a b => a.timeTenths < b.timeTenths) notes ∧
    (∀ t1 t2, t1 < t2 → t2 ≤ 3 → minSpacingTenths t2 < minSpacingTenths t1) := by
  have hnotes : notes = mkNotes 0 (keepSpaced (minSpacingTenths tier) onsets none) := by
    unfold synthesize at h
    split at h
    · cases h
    · cases h
      rfl
  subst hnotes
  have hchain := (keepSpaced_bound_chain (minSpacingTenths tier) onsets none).1
  have hmap := mkNotes_times 0 (keepSpaced (minSpacingTenths tier) onsets none)
  have hchain2 :
      List.Chain' (fun a b => a.timeTenths + minSpacingTenths tier ≤ b.timeTenths)
        (mkNotes 0 (keepSpaced (minSpacingTenths tier) onsets none)) := by
    have hmapped :
        List.Chain' (fun x y => x + minSpacingTenths tier ≤ y)
          (List.map NoteEvent.timeTenths
            (mkNotes 0 (keepSpaced (minSpacingTenths tier) onsets none))) := by
      rw [hmap]
      exact hchain
    exact (List.chain'_map NoteEvent.timeTenths).mp hmapped
  refine ⟨hchain2, ?_, ?_⟩
  · refine List.Chain'.imp ?_ hchain2
    intro a b hab
    have := minSpacing_pos tier
    omega
  · intro t1 t2 h1 h2
    interval_cases t2 <;> interval_cases t1 <;> decide

/-- Notes produced by the concrete C6 witness run. -/
def c6Notes : List NoteEvent := [⟨0, 0⟩, ⟨10, 1⟩, ⟨20, 2⟩]

/-- Witness for C6 at a concrete successful synthesis. -/
theorem synthesize_spacing_witness :
    List.Chain' (fun a b => a.timeTenths + minSpacingTenths 0 ≤ b.timeTenths) c6Notes ∧
    List.Chain' (fun a b => a.timeTenths < b.timeTenths) c6Notes ∧
    (∀ t1 t2, t1 < t2 → t2 ≤ 3 → minSpacingTenths t2 < minSpacingTenths t1) :=
  synthesize_spacing [0, 10, 20] 0 100 c6Notes rfl

/-! ## C7 — metadata edits: immediate apply vs regeneration -/

/-- C7: an edit without a difficulty change returns an immediate
acknowledgment, creates no task and leaves both `artifactVersion` and the
committed artifacts untouched; an edit with an explicit difficulty (no task
active) returns `regenerating` with the fresh task id, and running that task
to completion increments the beatmap's `artifactVersion` by exactly one with
the task terminal at Completed/100. -/
theorem metadata_edit_effects (s : SysState) (bid : Nat) (e : MetaEdit) (rec : BeatmapRec)
    (hrec : List.lookup bid s.beatmaps = some rec) :
    (e.difficultyOverride = none →
      (editBeatmap s bid e).2 = .ack ∧
      (editBeatmap s bid e).1.tasks = s.tasks ∧
      artifactVersionOf (editBeatmap s bid e).1 bid = some rec.artifactVersion ∧
      currentArtifacts (editBeatmap s bid e).1 bid = currentArtifacts s bid) ∧
    (∀ d b, e.difficultyOverride = some d → hasActiveTask s bid = false →
      pipeline (regenRequest (applyEditFields rec e) d) = .ok b →
      (editBeatmap s bid e).2 = .regen s.nextTask ∧
      artifactVersionOf
        (completeTask (startTask (editBeatmap s bid e).1 s.nextTask) s.nextTask) bid =
        some (rec.artifactVersion + 1) ∧
      ∃ t2, List.lookup s.nextTask
          (completeTask (startTask (editBeatmap s bid e).1 s.nextTask) s.nextTask).tasks =
          some t2 ∧ t2.status = .completed ∧ t2.progress = 100) := by
  constructor
  · intro hd
    rw [editBeatmap_ack s bid e rec hrec hd]
    refine ⟨rfl, rfl, ?_, ?_⟩
    · rw [artifactVersionOf]
      dsimp only
      rw [lookup_upsert_self]
      rfl
    · rw [currentArtifacts, currentArtifacts]
      dsimp only
      rw [lookup_upsert_self, hrec]
      rfl
  · intro d b hd hhat hpl
    rw [editBeatmap_regen s bid e rec d hrec hd hhat]
    dsimp only
    refine ⟨rfl, ?_, ?_⟩
    · have hlk0 : List.lookup s.nextTask
          ((s.nextTask, (⟨bid, regenRequest (applyEditFields rec e) d, .queued, 0⟩ : Task))
            :: s.tasks) =
          some ⟨bid, regenRequest (applyEditFields rec e) d, .queued, 0⟩ := by
        rw [List.lookup_cons]
        simp only [beq_self_eq_true]
      have hlk1 : List.lookup s.nextTask
          (startTask
            { s with
                beatmaps := upsert bid (applyEditFields rec e) s.beatmaps
                tasks :=
                  (s.nextTask,
                    ⟨bid, regenRequest (applyEditFields rec e) d, .queued, 0⟩) :: s.tasks
                nextTask := s.nextTask + 1 }
            s.nextTask).tasks =
          some ⟨bid, regenRequest (applyEditFields rec e) d, .inProgress, 0⟩ := by
        rw [startTask]
        dsimp only
        rw [lookup_updTask_self, hlk0]
        rfl
      rw [completeTask_ok _ s.nextTask
        ⟨bid, regenRequest (applyEditFields rec e) d, .inProgress, 0⟩ b hlk1 rfl hpl]
      rw [finishOk]
      rw [artifactVersionOf]
      dsimp only
      rw [startTask]
      dsimp only
      rw [lookup_upsert_self]
      dsimp only [Option.map]
      rw [lookup_upsert_self]
      rfl
    · have hlk0 : List.lookup s.nextTask
          ((s.nextTask, (⟨bid, regenRequest (applyEditFields rec e) d, .queued, 0⟩ : Task))
            :: s.tasks) =
          some ⟨bid, regenRequest (applyEditFields rec e) d, .queued, 0⟩ := by
        rw [List.lookup_cons]
        simp only [beq_self_eq_true]
      have hlk1 : List.lookup s.nextTask
          (startTask
            { s with
                beatmaps := upsert bid (applyEditFields rec e) s.beatmaps
                tasks :=
                  (s.nextTask,
                    ⟨bid, regenRequest (applyEditFields rec e) d, .queued, 0⟩) :: s.tasks
                nextTask := s.nextTask + 1 }
            s.nextTask).tasks =
          some ⟨bid, regenRequest (applyEditFields rec e) d, .inProgress, 0⟩ := by
        rw [startTask]
        dsimp only
        rw [lookup_updTask_self, hlk0]
        rfl
      rw [completeTask_ok _ s.nextTask
        ⟨bid, regenRequest (applyEditFields rec e) d, .inProgress, 0⟩ b hlk1 rfl hpl]
      rw [finishOk]
      refine ⟨⟨bid, regenRequest (applyEditFields rec e) d, .completed, 100⟩, ?_, rfl, rfl⟩
      dsimp only
      rw [lookup_updTask_self, hlk1]
      rfl

/-- An existing beatmap (version 1, artifacts committed) used by the C7
witness. -/
def bm0 : BeatmapRec :=
  ⟨"T", "A", 1, none, 0, 100, 1, some ⟨1, [], 1, []⟩, none, ⟨true, 120, [0, 10, 20], [], 100⟩⟩

/-- Catalog holding only beatmap 5. -/
def sEdit : SysState := ⟨[(5, bm0)], [], 0⟩

/-- A title-only edit. -/
def e0 : MetaEdit := ⟨some "T2", none, none, none⟩

/-- An explicit-difficulty (HARD) edit. -/
def e1 : MetaEdit := ⟨none, none, none, some 2⟩

/-- The artifact bundle the witness regeneration produces. -/
def cBundle : GenBundle :=
  ⟨[⟨0, 0⟩, ⟨10, 1⟩, ⟨20, 2⟩],
    [["Song Name", "Author Name", "Difficulty", "Song Duration", "Song Map"],
     ["T", "A", "2", "10.0", "1"]],
    2, 100⟩

/-- Witness for C7: the title-only edit acknowledges immediately with no
task and version 1 unchanged; the difficulty edit regenerates task 0 and
completing it moves the version to exactly 2. -/
theorem metadata_edit_effects_witness :
    (editBeatmap sEdit 5 e0).2 = .ack ∧
    (editBeatmap sEdit 5 e0).1.tasks = sEdit.tasks ∧
    artifactVersionOf (editBeatmap sEdit 5 e0).1 5 = some 1 ∧
    (editBeatmap sEdit 5 e1).2 = .regen 0 ∧
    artifactVersionOf (completeTask (startTask (editBeatmap sEdit 5 e1).1 0) 0) 5 =
      some 2 := by
  have ha := (metadata_edit_effects sEdit 5 e0 bm0 rfl).1 rfl
  have hb := (metadata_edit_effects sEdit 5 e1 bm0 rfl).2 2 cBundle rfl rfl rfl
  exact ⟨ha.1, ha.2.1, ha.2.2.1, hb.1, hb.2.1⟩

/-! ## C8 — task lifecycle -/

/-- C8: across every orchestrator event, a task's status only moves along
Queued → InProgress → {Completed, Error} (never backwards and never between
the terminals), its progress never decreases, and a terminal task is
immutable; completing any InProgress task always yields a terminal status
(so a poller eventually observes one); and in every reachable state each
progress value is an integer within 0..100. -/
theorem task_lifecycle :
    (∀ s, Reachable s → ∀ ev tid t t2,
      List.lookup tid s.tasks = some t →
      List.lookup tid (applyEvent s ev).tasks = some t2 →
      statusStepOK t.status t2.status = true ∧ t.progress ≤ t2.progress ∧
        (isTerminal t.status = true → t2 = t)) ∧
    (∀ s tid t, List.lookup tid s.tasks = some t → t.status = .inProgress →
      ∃ t2, List.lookup tid (completeTask s tid).tasks = some t2 ∧
        isTerminal t2.status = true) ∧
    (∀ s, Reachable s → progressOk s.tasks = true) := by
  refine ⟨?_, ?_, ?_⟩
  · intro s hr ev tid t t2 hlk hlk2
    have hinv := sysInv_parts (reachable_inv hr)
    cases ev with
    | request bid req =>
      dsimp only [applyEvent] at hlk2
      cases hhat : hasActiveTask s bid
      · rw [requestGen_accept s bid req hhat] at hlk2
        dsimp only at hlk2
        have hne : tid ≠ s.nextTask := by
          have := lookup_below s.nextTask s.tasks hinv.2.1 tid t hlk
          omega
        rw [List.lookup_cons] at hlk2
        simp only [beq_false_of_ne hne] at hlk2
        exact stepOK_of_eq t t2 (same_lookup hlk hlk2)
      · rw [requestGen_reject s bid req hhat] at hlk2
        exact stepOK_of_eq t t2 (same_lookup hlk hlk2)
    | start tid2 =>
      dsimp only [applyEvent] at hlk2
      rw [startTask] at hlk2
      dsimp only at hlk2
      by_cases htid : tid = tid2
      · subst htid
        rw [lookup_updTask_self, hlk] at hlk2
        dsimp only [Option.map] at hlk2
        have ht2 := (Option.some.inj hlk2).symm
        by_cases hq : t.status = .queued
        · rw [if_pos hq] at ht2
          subst ht2
          refine ⟨by rw [hq]; rfl, Nat.le_refl _, ?_⟩
          intro hterm
          rw [hq] at hterm
          exact absurd hterm (by decide)
        · rw [if_neg hq] at ht2
          exact stepOK_of_eq t t2 ht2
      · rw [lookup_updTask_ne tid2 tid _ htid] at hlk2
        exact stepOK_of_eq t t2 (same_lookup hlk hlk2)
    | report tid2 p =>
      dsimp only [applyEvent] at hlk2
      rw [reportProgress] at hlk2
      dsimp only at hlk2
      by_cases htid : tid = tid2
      · subst htid
        rw [lookup_updTask_self, hlk] at hlk2
        dsimp only [Option.map] at hlk2
        have ht2 := (Option.some.inj hlk2).symm
        by_cases hq : t.status = .inProgress
        · rw [if_pos hq] at ht2
          subst ht2
          refine ⟨by rw [hq]; rfl, Nat.le_max_left _ _, ?_⟩
          intro hterm
          rw [hq] at hterm
          exact absurd hterm (by decide)
        · rw [if_neg hq] at ht2
          exact stepOK_of_eq t t2 ht2
      · rw [lookup_updTask_ne tid2 tid _ htid] at hlk2
        exact stepOK_of_eq t t2 (same_lookup hlk hlk2)
    | complete tid2 =>
      dsimp only [applyEvent] at hlk2
      by_cases htid : tid = tid2
      · subst htid
        by_cases hst : t.status = .inProgress
        · cases hpl : pipeline t.req with
          | error e =>
            rw [completeTask_error s tid t e hlk hst hpl, finishError] at hlk2
            dsimp only at hlk2
            rw [lookup_updTask_self, hlk] at hlk2
            dsimp only [Option.map] at hlk2
            rw [if_pos hst] at hlk2
            have ht2 := (Option.some.inj hlk2).symm
            subst ht2
            refine ⟨by rw [hst]; rfl, Nat.le_refl _, ?_⟩
            intro hterm
            rw [hst] at hterm
            exact absurd hterm (by decide)
          | ok b =>
            rw [completeTask_ok s tid t b hlk hst hpl, finishOk] at hlk2
            dsimp only at hlk2
            rw [lookup_updTask_self, hlk] at hlk2
            dsimp only [Option.map] at hlk2
            rw [if_pos hst] at hlk2
            have ht2 := (Option.some.inj hlk2).symm
            subst ht2
            refine ⟨by rw [hst]; rfl, lookup_progress hinv.2.2.1 hlk, ?_⟩
            intro hterm
            rw [hst] at hterm
            exact absurd hterm (by decide)
        · rw [completeTask_notIP s tid t hlk hst] at hlk2
          exact stepOK_of_eq t t2 (same_lookup hlk hlk2)
      · cases hlk0 : List.lookup tid2 s.tasks with
        | none =>
          rw [completeTask_none s tid2 hlk0] at hlk2
          exact stepOK_of_eq t t2 (same_lookup hlk hlk2)
        | some t3 =>
          by_cases hst : t3.status = .inProgress
          · cases hpl : pipeline t3.req with
            | error e =>
              rw [completeTask_error s tid2 t3 e hlk0 hst hpl, finishError] at hlk2
              dsimp only at hlk2
              rw [lookup_updTask_ne tid2 tid _ htid] at hlk2
              exact stepOK_of_eq t t2 (same_lookup hlk hlk2)
            | ok b =>
              rw [completeTask_ok s tid2 t3 b hlk0 hst hpl, finishOk] at hlk2
              dsimp only at hlk2
              rw [lookup_updTask_ne tid2 tid _ htid] at hlk2
              exact stepOK_of_eq t t2 (same_lookup hlk hlk2)
          · rw [completeTask_notIP s tid2 t3 hlk0 hst] at hlk2
            exact stepOK_of_eq t t2 (same_lookup hlk hlk2)
    | edit bid e2 =>
      dsimp only [applyEvent] at hlk2
      cases hrec : List.lookup bid s.beatmaps with
      | none =>
        rw [editBeatmap_notFound s bid e2 hrec] at hlk2
        exact stepOK_of_eq t t2 (same_lookup hlk hlk2)
      | some rec =>
        cases hd : e2.difficultyOverride with
        | none =>
          rw [editBeatmap_ack s bid e2 rec hrec hd] at hlk2
          dsimp only at hlk2
          exact stepOK_of_eq t t2 (same_lookup hlk hlk2)
        | some d =>
          cases hhat : hasActiveTask s bid
          · rw [editBeatmap_regen s bid e2 rec d hrec hd hhat] at hlk2
            dsimp only at hlk2
            have hne : tid ≠ s.nextTask := by
              have := lookup_below s.nextTask s.tasks hinv.2.1 tid t hlk
              omega
            rw [List.lookup_cons] at hlk2
            simp only [beq_false_of_ne hne] at hlk2
            exact stepOK_of_eq t t2 (same_lookup hlk hlk2)
          · rw [editBeatmap_busy s bid e2 rec d hrec hd hhat] at hlk2
            exact stepOK_of_eq t t2 (same_lookup hlk hlk2)
  · intro s tid t hlk hst
    cases hpl : pipeline t.req with
    | error e =>
      refine ⟨{ t with status := .error (errMsg e) }, ?_, rfl⟩
      rw [completeTask_error s tid t e hlk hst hpl, finishError]
      dsimp only
      rw [lookup_updTask_self, hlk]
      dsimp only [Option.map]
      rw [if_pos hst]
    | ok b =>
      refine ⟨{ t with status := .completed, progress := 100 }, ?_, rfl⟩
      rw [completeTask_ok s tid t b hlk hst hpl, finishOk]
      dsimp only
      rw [lookup_updTask_self, hlk]
      dsimp only [Option.map]
      rw [if_pos hst]
  · intro s hr
    exact (sysInv_parts (reachable_inv hr)).2.2.1

/-- Witness for C8: the concrete queued task moves to InProgress, the
concrete in-progress task reaches a terminal status on completion, and the
reachable one-task state has all progress values within bounds. -/
theorem task_lifecycle_witness :
    statusStepOK TaskStatus.queued TaskStatus.inProgress = true ∧
    (∃ t2, List.lookup 0 (completeTask s2 0).tasks = some t2 ∧
      isTerminal t2.status = true) ∧
    progressOk s1.tasks = true := by
  have hreach1 : Reachable s1 := Reachable.step (.request 7 demoReq) Reachable.init
  have h1 := task_lifecycle.1 s1 hreach1 (.start 0) 0
    ⟨7, demoReq, .queued, 0⟩ ⟨7, demoReq, .inProgress, 0⟩ (by decide) (by decide)
  have h2 := task_lifecycle.2.1 s2 0 ⟨7, sparseReq, .inProgress, 0⟩ (by decide) rfl
  have h3 := task_lifecycle.2.2 s1 hreach1
  exact ⟨h1.1, h2, h3⟩

/-! ## C9 — info writer purity and validation -/

/-- C9: the info writer is a pure function (equal inputs give byte-identical
output) and validates its codes: the serialized difficulty is always in
{0,1,2,3} and the song map in {0,1,2}; valid inputs pass through unchanged
with no warning, while an invalid difficulty or song map is replaced by the
defined default and the correction is recorded, so corrupt values are never
written. -/
theorem writeInfo_pure_valid (t a : String) (d dur m : Nat)
    (t2 a2 : String) (d2 dur2 m2 : Nat)
    (h1 : t = t2) (h2 : a = a2) (h3 : d = d2) (h4 : dur = dur2) (h5 : m = m2) :
    writeInfo t a d dur m = writeInfo t2 a2 d2 dur2 m2 ∧
    ∃ dv mv, dv ≤ 3 ∧ mv ≤ 2 ∧
      (writeInfo t a d dur m).rows =
        [infoHeader, [t, a, toString dv, renderTenths dur, toString mv]] ∧
      (d ≤ 3 ∧ m ≤ 2 → dv = d ∧ mv = m ∧ (writeInfo t a d dur m).warnings = []) ∧
      (3 < d ∨ 2 < m → (writeInfo t a d dur m).warnings ≠ []) := by
  subst h1; subst h2; subst h3; subst h4; subst h5
  refine ⟨rfl, ?_⟩
  by_cases hd : d ≤ 3 <;> by_cases hm : m ≤ 2
  · refine ⟨d, m, hd, hm, ?_, ?_, ?_⟩
    · simp [writeInfo, hd, hm]
    · intro _
      refine ⟨rfl, rfl, ?_⟩
      simp [writeInfo, hd, hm]
    · intro hc
      rcases hc with h | h <;> omega
  · refine ⟨d, defaultSongMapCode, hd, by decide, ?_, ?_, ?_⟩
    · simp [writeInfo, hd, hm]
    · intro hc
      exact absurd hc.2 hm
    · intro _
      simp [writeInfo, hd, hm]
  · refine ⟨defaultDifficultyCode, m, by decide, hm, ?_, ?_, ?_⟩
    · simp [writeInfo, hd, hm]
    · intro hc
      exact absurd hc.1 hd
    · intro _
      simp [writeInfo, hd, hm]
  · refine ⟨defaultDifficultyCode, defaultSongMapCode, by decide, by decide, ?_, ?_, ?_⟩
    · simp [writeInfo, hd, hm]
    · intro hc
      exact absurd hc.1 hd
    · intro _
      simp [writeInfo, hd, hm]

/-- Witness for C9 at an invalid difficulty (9) and song map (7): both are
corrected to the defaults and the corrections are recorded. -/
theorem writeInfo_pure_valid_witness :
    writeInfo "X" "Y" 9 120 7 = writeInfo "X" "Y" 9 120 7 ∧
    ∃ dv mv, dv ≤ 3 ∧ mv ≤ 2 ∧
      (writeInfo "X" "Y" 9 120 7).rows =
        [infoHeader, ["X", "Y", toString dv, renderTenths 120, toString mv]] ∧
      ((9 : Nat) ≤ 3 ∧ (7 : Nat) ≤ 2 → dv = 9 ∧ mv = 7 ∧
        (writeInfo "X" "Y" 9 120 7).warnings = []) ∧
      ((3 : Nat) < 9 ∨ (2 : Nat) < 7 → (writeInfo "X" "Y" 9 120 7).warnings ≠ []) :=
  writeInfo_pure_valid "X" "Y" 9 120 7 "X" "Y" 9 120 7 rfl rfl rfl rfl rfl

end BeatMapper
